import Mathlib

/-!
Verification development for the suon network front-end.

The definitions below are shallow embeddings of the Rust sources:
* `crates/suon_xtea/src/{encrypt.rs, decrypt.rs}` — the XTEA block cipher;
* `crates/suon_checksum/src/adler32.rs` — the Adler-32 checksum;
* `crates/suon_network/src/server/packet/incoming/{login,subsequent,server_name}/buffer.rs`
  — the three frame parsers;
* `crates/suon_network/src/server/packet/outgoing.rs` — the outgoing encoder;
* `crates/suon_network/src/server/connection/{limiter.rs, throttle.rs}` — the
  session limiter and the connection throttle.

Bytes are modelled as `Nat` values below 256 in `List Nat`; 32-bit machine
words are `Nat` with explicit reduction modulo `2 ^ 32`; fallible Rust
functions return `Except`.  Wall-clock `Instant`s are modelled as `Nat`
timestamps supplied explicitly by the caller.
-/

deriving instance DecidableEq for Except

namespace Suon

/-- `2 ^ 32`, the modulus of Rust `u32` arithmetic. -/
def M32 : Nat := 4294967296

/-- Rust `u32::wrapping_add`. -/
def add32 (a b : Nat) : Nat := (a + b) % M32

/-- Rust `u32::wrapping_sub`, as a total operation on `Nat`. -/
def sub32 (a b : Nat) : Nat := (a + (M32 - b % M32)) % M32

/-- Little-endian `u32::from_le_bytes [b0, b1, b2, b3]`. -/
def leU32 (b0 b1 b2 b3 : Nat) : Nat := b0 + 256 * b1 + 65536 * b2 + 16777216 * b3

/-- Little-endian `u32::to_le_bytes` of a value below `2 ^ 32`. -/
def leBytes32 (v : Nat) : List Nat := [v % 256, v / 256 % 256, v / 65536 % 256, v / 16777216 % 256]

/-- Little-endian `u16::from_le_bytes [b0, b1]`. -/
def leU16 (b0 b1 : Nat) : Nat := b0 + 256 * b1

/-- Little-endian `u16::to_le_bytes` of a value (Rust truncates with `as u16`). -/
def leBytes16 (v : Nat) : List Nat := [v % 256, v / 256 % 256]

/-- A 128-bit XTEA key: four `u32` words (`suon_xtea::XTEAKey = [u32; 4]`). -/
structure XTEAKey where
  w0 : Nat
  w1 : Nat
  w2 : Nat
  w3 : Nat
deriving DecidableEq

/-- `key[i]` for an index `i < 4` (the Rust code only indexes with
`sum & 3` and `(sum >> 11) & 3`). -/
def keyAt (k : XTEAKey) (i : Nat) : Nat :=
  if i = 0 then k.w0 else if i = 1 then k.w1 else if i = 2 then k.w2 else k.w3

/-- `XTEA_DELTA` from `suon_xtea/src/lib.rs`. -/
def XTEA_DELTA : Nat := 0x9E3779B9

/-- `XTEA_NUM_ROUNDS` from `suon_xtea/src/lib.rs`. -/
def XTEA_NUM_ROUNDS : Nat := 32

/-- `XTEA_BLOCK_SIZE` from `suon_xtea/src/lib.rs`. -/
def XTEA_BLOCK_SIZE : Nat := 8

/-- The inner mixing term `((v << 4 ^ v >> 5).wrapping_add(v))` shared by the
encryption and decryption rounds. -/
def xteaMix (v : Nat) : Nat := add32 (Nat.xor ((v <<< 4) % M32) (v >>> 5)) v

/-- One iteration of the encryption loop in `encrypt.rs` (lines 57-72), acting
on the state `(word_left, word_right, sum)`. -/
def encRound (k : XTEAKey) : Nat × Nat × Nat → Nat × Nat × Nat
  | (v0, v1, sum) =>
    let v0a := add32 v0 (Nat.xor (xteaMix v1) (add32 sum (keyAt k (sum &&& 3))))
    let suma := add32 sum XTEA_DELTA
    let v1a := add32 v1 (Nat.xor (xteaMix v0a) (add32 suma (keyAt k ((suma >>> 11) &&& 3))))
    (v0a, v1a, suma)

/-- One iteration of the decryption loop in `decrypt.rs` (lines 80-95). -/
def decRound (k : XTEAKey) : Nat × Nat × Nat → Nat × Nat × Nat
  | (v0, v1, sum) =>
    let v1a := sub32 v1 (Nat.xor (xteaMix v0) (add32 sum (keyAt k ((sum >>> 11) &&& 3))))
    let suma := sub32 sum XTEA_DELTA
    let v0a := sub32 v0 (Nat.xor (xteaMix v1a) (add32 suma (keyAt k (suma &&& 3))))
    (v0a, v1a, suma)

/-- `n` iterations of the encryption round (the `for _ in 0..XTEA_NUM_ROUNDS` loop). -/
def encRounds (k : XTEAKey) : Nat → Nat × Nat × Nat → Nat × Nat × Nat
  | 0, st => st
  | n + 1, st => encRound k (encRounds k n st)

/-- `n` iterations of the decryption round. -/
def decRounds (k : XTEAKey) : Nat → Nat × Nat × Nat → Nat × Nat × Nat
  | 0, st => st
  | n + 1, st => decRounds k n (decRound k st)

/-- The per-block encryption of `encrypt.rs` lines 40-77: each 8-byte chunk is
read as two little-endian words, run through 32 rounds starting from `sum = 0`,
and written back little-endian.  The final catch-all arm is unreachable for the
padded inputs `encrypt` produces (a shorter trailing chunk would make the Rust
`copy_from_slice` panic). -/
def encryptBlocks (k : XTEAKey) : List Nat → List Nat
  | b0 :: b1 :: b2 :: b3 :: b4 :: b5 :: b6 :: b7 :: rest =>
    let st := encRounds k XTEA_NUM_ROUNDS (leU32 b0 b1 b2 b3, leU32 b4 b5 b6 b7, 0)
    leBytes32 st.1 ++ leBytes32 st.2.1 ++ encryptBlocks k rest
  | _ => []

/-- `XTEADecryptError` from `decrypt.rs`. -/
inductive XTEADecryptError where
  | InvalidBlockSize
  | InnerLengthTooLarge (innerLength bufferLength : Nat)
  | InvalidBytes
deriving DecidableEq

/-- Zero-padding applied by `encrypt` (lines 28-34): right-pad with zero bytes
to the next multiple of the 8-byte block size. -/
def padZeros (m : List Nat) : List Nat :=
  m ++ List.replicate ((XTEA_BLOCK_SIZE - m.length % XTEA_BLOCK_SIZE) % XTEA_BLOCK_SIZE) 0

/-- `suon_xtea::encrypt`: pad the plaintext with zeros to a multiple of 8 bytes
and encrypt block-wise. -/
def encrypt (m : List Nat) (k : XTEAKey) : List Nat :=
  encryptBlocks k (padZeros m)

/-- The per-block decryption of `decrypt.rs` lines 57-100: each 8-byte chunk is
run through 32 rounds starting from `sum = XTEA_DELTA.wrapping_mul(32)`.  A
trailing chunk shorter than 8 bytes fails the `try_into` conversion with
`InvalidBytes` (this mirrors `chunks(8)` producing a short final chunk). -/
def decryptBlocksE (k : XTEAKey) : List Nat → Except XTEADecryptError (List Nat)
  | [] => .ok []
  | b0 :: b1 :: b2 :: b3 :: b4 :: b5 :: b6 :: b7 :: rest =>
    let st := decRounds k XTEA_NUM_ROUNDS
      (leU32 b0 b1 b2 b3, leU32 b4 b5 b6 b7, XTEA_DELTA * XTEA_NUM_ROUNDS % M32)
    match decryptBlocksE k rest with
    | .ok tail => .ok (leBytes32 st.1 ++ leBytes32 st.2.1 ++ tail)
    | .error e => .error e
  | _ => .error .InvalidBytes

/-- Reading `u16::from_le_bytes(decrypted[0..2])`; the `try_into` failure arm
(`InvalidBytes`) is kept, mirroring `decrypt.rs` lines 111-115. -/
def readInnerLength : List Nat → Except XTEADecryptError Nat
  | d0 :: d1 :: _ => .ok (d0 + 256 * d1)
  | _ => .error .InvalidBytes

/-- `suon_xtea::decrypt` (decrypt.rs lines 47-129): reject inputs whose length
is not a multiple of 8, decrypt block-wise, read the 2-byte little-endian inner
length, validate it, and truncate to `inner_length + 2` bytes.  Note the
returned plaintext keeps the 2-byte inner-length header. -/
def decrypt (c : List Nat) (k : XTEAKey) : Except XTEADecryptError (List Nat) :=
  if c.length % XTEA_BLOCK_SIZE ≠ 0 then .error .InvalidBlockSize
  else
    match decryptBlocksE k c with
    | .error e => .error e
    | .ok decrypted =>
      if decrypted.length < 2 then .error (.InnerLengthTooLarge 0 c.length)
      else
        match readInnerLength decrypted with
        | .error e => .error e
        | .ok innerLength =>
          if innerLength + 2 > decrypted.length then
            .error (.InnerLengthTooLarge innerLength c.length)
          else .ok (decrypted.take (innerLength + 2))

/-! ## Adler-32 (`suon_checksum/src/adler32.rs`) -/

/-- `Adler32Checksum::MOD_ADLER`. -/
def MOD_ADLER : Nat := 65521

/-- The loop of `Adler32Checksum::calculate` (lines 33-36): fold the running
pair `(sum_low, sum_high)` over the data bytes. -/
def adlerLoop : Nat → Nat → List Nat → Nat × Nat
  | sumLow, sumHigh, [] => (sumLow, sumHigh)
  | sumLow, sumHigh, b :: rest =>
    let sumLow2 := (sumLow + b) % MOD_ADLER
    adlerLoop sumLow2 ((sumHigh + sumLow2) % MOD_ADLER) rest

/-- `Adler32Checksum::calculate`: run the loop from `(INITIAL = 1, 0)` and
combine as `(sum_high << 16) | sum_low`. -/
def adlerCalculate (data : List Nat) : Nat :=
  let p := adlerLoop 1 0 data
  (p.2 <<< 16) ||| p.1

/-- Modelled from the spec (§4.2): one step of the documented recurrence
`A = (A + x) mod 65521; B = (B + A) mod 65521`. -/
def adlerSpecStep (p : Nat × Nat) (x : Nat) : Nat × Nat :=
  let a := (p.1 + x) % 65521
  (a, (p.2 + a) % 65521)

/-- Modelled from the spec (§4.2): start from `A = 1, B = 0`, apply the
recurrence for each byte, and finish with `(B << 16) | A`. -/
def adlerSpec (data : List Nat) : Nat :=
  let p := data.foldl adlerSpecStep (1, 0)
  (p.2 <<< 16) ||| p.1

/-! ## Packet kinds and parser errors -/

/-- `suon_protocol::packets::client::PacketKind`. -/
inductive PacketKind where
  | ServerName
  | Login
  | Logout
  | PingLatency
  | KeepAlive
deriving DecidableEq

/-- `TryFrom<u8> for PacketKind` (client/mod.rs lines 87-100). -/
def PacketKind.tryFromByte (v : Nat) : Option PacketKind :=
  if v = 0 then some .ServerName
  else if v = 10 then some .Login
  else if v = 20 then some .Logout
  else if v = 29 then some .PingLatency
  else if v = 30 then some .KeepAlive
  else none

/-- `PACKET_HEADER_SIZE` from `server/packet/mod.rs`. -/
def PACKET_HEADER_SIZE : Nat := 2

/-- `PACKET_CHECKSUM_SIZE` from `server/packet/mod.rs`. -/
def PACKET_CHECKSUM_SIZE : Nat := 4

/-- `PACKET_KIND_SIZE` from `suon_protocol/src/packets/mod.rs`. -/
def PACKET_KIND_SIZE : Nat := 1

/-- A decoded incoming packet (`IncomingPacket`); the capture timestamp
(`Instant::now()`) carries no protocol content and is omitted. -/
structure IncomingPacket where
  checksum : Option Nat
  kind : PacketKind
  buffer : List Nat
deriving DecidableEq

/-- The parse-error variants shared by the login and subsequent
`PacketReadError` enums (the I/O-only variants `ConnectionClosed` and `Io`
cannot arise inside `take_packet` and are omitted).  The Rust constructor
`IncompletePrefix` is rendered here as `IncompleteHeader`. -/
inductive PacketReadError where
  | IncompleteHeader (available required : Nat)
  | IncompletePacket (available required : Nat)
  | TooShort (actual min : Nat)
  | EmptyLength
  | LengthOutOfBounds (declared max : Nat)
  | ChecksumMismatch (expected actual : Nat)
  | UnknownId (id : Nat)
  | XteaDecryption (e : XTEADecryptError)
deriving DecidableEq

/-! ## Login frame parser (`incoming/login/buffer.rs`, `take_packet`) -/

/-- `PacketBuffer::take_packet` for the login stage (login/buffer.rs lines
35-135), as a function of the buffered bytes `inner` (length prefix included)
and `max_length`. -/
def loginTakePacket (inner : List Nat) (maxLength : Nat) : Except PacketReadError IncomingPacket :=
  let bufferLength := inner.length
  if bufferLength < PACKET_HEADER_SIZE then
    .error (.IncompleteHeader bufferLength PACKET_HEADER_SIZE)
  else
    let declaredBodyLen := leU16 (inner.getD 0 0) (inner.getD 1 0)
    if declaredBodyLen = 0 then .error .EmptyLength
    else
      let totalLen := PACKET_HEADER_SIZE + declaredBodyLen
      if totalLen > maxLength then .error (.LengthOutOfBounds totalLen maxLength)
      else if bufferLength < totalLen then .error (.IncompletePacket bufferLength totalLen)
      else
        let bodyBytes := (inner.take totalLen).drop PACKET_HEADER_SIZE
        let minBodyLen := PACKET_CHECKSUM_SIZE + PACKET_KIND_SIZE
        if bodyBytes.length < minBodyLen then .error (.TooShort bodyBytes.length minBodyLen)
        else
          let expectedChecksum :=
            leU32 (bodyBytes.getD 0 0) (bodyBytes.getD 1 0) (bodyBytes.getD 2 0) (bodyBytes.getD 3 0)
          let payloadSlice := bodyBytes.drop minBodyLen
          let actualChecksum := adlerCalculate payloadSlice
          if expectedChecksum > 0 ∧ expectedChecksum ≠ actualChecksum then
            .error (.ChecksumMismatch expectedChecksum actualChecksum)
          else
            let rawKind := bodyBytes.getD PACKET_CHECKSUM_SIZE 0
            match PacketKind.tryFromByte rawKind with
            | none => .error (.UnknownId rawKind)
            | some packetKind =>
              if packetKind ≠ PacketKind.Login then .error (.UnknownId rawKind)
              else .ok { checksum := none, kind := packetKind, buffer := payloadSlice }

/-! ## Subsequent frame parser (`incoming/subsequent/buffer.rs`, `take_packet`) -/

/-- `PacketBuffer::take_packet` for the subsequent stage (subsequent/buffer.rs
lines 35-159).  Identical framing to the login stage except: the body-length
floor is `PACKET_CHECKSUM_SIZE` only, the post-checksum region is decrypted
with the XTEA key, and the kind byte is the first byte of the decrypted data
(`decrypted_bytes.split_to(PACKET_KIND_SIZE)`). -/
def subsequentTakePacket (xteaKey : XTEAKey) (maxLength : Nat) (inner : List Nat) :
    Except PacketReadError IncomingPacket :=
  let bufferLength := inner.length
  if bufferLength < PACKET_HEADER_SIZE then
    .error (.IncompleteHeader bufferLength PACKET_HEADER_SIZE)
  else
    let declaredBodyLen := leU16 (inner.getD 0 0) (inner.getD 1 0)
    if declaredBodyLen = 0 then .error .EmptyLength
    else
      let totalLen := PACKET_HEADER_SIZE + declaredBodyLen
      if totalLen > maxLength then .error (.LengthOutOfBounds totalLen maxLength)
      else if bufferLength < totalLen then .error (.IncompletePacket bufferLength totalLen)
      else
        let bodyBytes := (inner.take totalLen).drop PACKET_HEADER_SIZE
        if bodyBytes.length < PACKET_CHECKSUM_SIZE then
          .error (.TooShort bodyBytes.length PACKET_CHECKSUM_SIZE)
        else
          let expectedChecksum :=
            leU32 (bodyBytes.getD 0 0) (bodyBytes.getD 1 0) (bodyBytes.getD 2 0) (bodyBytes.getD 3 0)
          let payloadSlice := bodyBytes.drop PACKET_CHECKSUM_SIZE
          let actualChecksum := adlerCalculate payloadSlice
          if expectedChecksum > 0 ∧ expectedChecksum ≠ actualChecksum then
            .error (.ChecksumMismatch expectedChecksum actualChecksum)
          else
            match decrypt payloadSlice xteaKey with
            | .error e => .error (.XteaDecryption e)
            | .ok decryptedBytes =>
              if decryptedBytes.length < PACKET_KIND_SIZE then
                .error (.TooShort decryptedBytes.length PACKET_KIND_SIZE)
              else
                let kindByte := decryptedBytes.getD 0 0
                match PacketKind.tryFromByte kindByte with
                | none => .error (.UnknownId kindByte)
                | some packetKind =>
                  .ok { checksum := if expectedChecksum > 0 then some expectedChecksum else none,
                        kind := packetKind,
                        buffer := decryptedBytes.drop PACKET_KIND_SIZE }

/-! ## Server-name frame parser (`incoming/server_name/buffer.rs`) -/

/-- The state of the server-name `PacketBuffer`: the byte buffer (2-byte length
prefix region included) and the `empty_packet_checked` flag. -/
structure ServerNamePacketBuffer where
  inner : List Nat
  emptyPacketChecked : Bool
deriving DecidableEq

/-- `PacketBuffer::payload_len` (server_name/buffer.rs line 112): buffer length
minus the prefix, saturating at zero. -/
def serverNamePayloadLen (inner : List Nat) : Nat := inner.length - PACKET_HEADER_SIZE

/-- `PacketBuffer::build_packet` (server_name/buffer.rs lines 121-153): write
the little-endian payload length into the 2-byte prefix region, then freeze the
whole buffer as the packet bytes. -/
def serverNameBuildPacket (inner : List Nat) : IncomingPacket :=
  let payloadLength := serverNamePayloadLen inner
  { checksum := none, kind := PacketKind.ServerName,
    buffer := leBytes16 payloadLength ++ inner.drop PACKET_HEADER_SIZE }

/-- `PacketBuffer::take_packet` (server_name/buffer.rs lines 57-89).  On the
first call (`empty_packet_checked = false`), if the payload holds at least two
bytes and the byte at index `PACKET_HEADER_SIZE` — the **first** payload byte —
is zero, the special empty packet is emitted at once.  Otherwise the frame is
complete only when the last buffered byte is the newline terminator `0x0A`,
which is stripped before building the packet. -/
def serverNameTakePacket (buf : ServerNamePacketBuffer) : Option IncomingPacket :=
  let inner := buf.inner
  if buf.emptyPacketChecked = false ∧ serverNamePayloadLen inner > 1 ∧
      inner.getD PACKET_HEADER_SIZE 0 = 0 then
    some (serverNameBuildPacket inner)
  else
    match inner.getLast? with
    | none => none
    | some newlineByte =>
      if newlineByte ≠ 10 then none
      else some (serverNameBuildPacket (inner.take (inner.length - 1)))

/-! ## Outgoing encoder (`server/packet/outgoing.rs`, `OutgoingPacket::encode`) -/

/-- `ChecksumMode` from `server/connection/checksum_mode.rs`. -/
inductive ChecksumMode where
  | Adler32
  | Sequence (n : Nat)
deriving DecidableEq

/-- `OutgoingPacket::encode` (outgoing.rs lines 45-128).  The buffer writes
collapse to the concatenation `[total_len u16][checksum u32][body_len u16][body]`:
the payload is encrypted when a key is set, `body_len` is the (possibly
encrypted) body length as `u16`, the Adler-32 checksum covers the region from
the `body_len` field to the end, and `total_len = buffer.len() - HEADER_SIZE`.
The `Sequence` checksum mode hits `unimplemented!()` (a panic), modelled as
`none`. -/
def outgoingEncode (payload : List Nat) (xteaKey : Option XTEAKey) (mode : ChecksumMode) :
    Option (List Nat) :=
  let body := match xteaKey with
    | some k => encrypt payload k
    | none => payload
  let afterChecksumRegion := leBytes16 body.length ++ body
  match mode with
  | .Adler32 =>
    let checksum := adlerCalculate afterChecksumRegion
    let totalLen := PACKET_CHECKSUM_SIZE + PACKET_HEADER_SIZE + body.length
    some (leBytes16 totalLen ++ leBytes32 checksum ++ afterChecksumRegion)
  | .Sequence _ => none

/-! ## Session limiter (`server/connection/limiter.rs`) -/

/-- `SessionQuota` from `server/settings.rs`. -/
structure SessionQuota where
  maxTotal : Nat
  maxPerAddress : Nat
deriving DecidableEq

/-- `Limiter`: the global counter and the per-address map.  The `HashMap` is
modelled as an association list (addresses as `Nat`); keys are inserted at most
once, mirroring the `entry` API. -/
structure Limiter where
  totalActive : Nat
  sessions : List (Nat × Nat)
  sessionQuota : SessionQuota
deriving DecidableEq

/-- `HashMap::get`-style lookup in the association-list model. -/
def lookupSession : List (Nat × Nat) → Nat → Option Nat
  | [], _ => none
  | (a, v) :: rest, addr => if a = addr then some v else lookupSession rest addr

/-- Overwrite the value stored under `addr` (the map holds each key once). -/
def setSession (sessions : List (Nat × Nat)) (addr v : Nat) : List (Nat × Nat) :=
  sessions.map (fun p => if p.1 = addr then (addr, v) else p)

/-- `Limiter::new` with a given quota. -/
def initLimiter (q : SessionQuota) : Limiter :=
  { totalActive := 0, sessions := [], sessionQuota := q }

/-- `AcquireError` from limiter.rs. -/
inductive AcquireError where
  | TotalReached (maxTotal : Nat)
  | PerAddressReached (addr maxPerAddr : Nat)
deriving DecidableEq

/-- `Limiter::try_acquire` (limiter.rs lines 68-107): fail when the global
ceiling is reached; otherwise get-or-insert the per-address state (inserting
`active = 0` even when the per-address check then fails); fail when the
per-address ceiling is reached; otherwise increment both counters. -/
def tryAcquire (l : Limiter) (addr : Nat) : Limiter × Except AcquireError Unit :=
  if l.totalActive ≥ l.sessionQuota.maxTotal then
    (l, .error (.TotalReached l.sessionQuota.maxTotal))
  else
    let sessions1 := match lookupSession l.sessions addr with
      | some _ => l.sessions
      | none => l.sessions ++ [(addr, 0)]
    let active := (lookupSession sessions1 addr).getD 0
    if active ≥ l.sessionQuota.maxPerAddress then
      ({ l with sessions := sessions1 },
       .error (.PerAddressReached addr l.sessionQuota.maxPerAddress))
    else
      ({ l with totalActive := l.totalActive + 1,
                sessions := setSession sessions1 addr (active + 1) }, .ok ())

/-- `Limiter::release` (limiter.rs lines 110-130): a no-op (with a warning)
when the address has no map entry; otherwise decrement the per-address counter
and the global counter, each independently saturating at zero. -/
def release (l : Limiter) (addr : Nat) : Limiter :=
  match lookupSession l.sessions addr with
  | none => l
  | some active =>
    let active2 := if active > 0 then active - 1 else active
    let total2 := if l.totalActive > 0 then l.totalActive - 1 else l.totalActive
    { l with totalActive := total2, sessions := setSession l.sessions addr active2 }

/-- The sum of the per-address active counters. -/
def sessionsSum (l : Limiter) : Nat := (l.sessions.map Prod.snd).sum

/-- One limiter call in a trace. -/
inductive LimiterOp where
  | acquire (addr : Nat)
  | releaseOp (addr : Nat)
deriving DecidableEq

/-- Apply one trace operation (the result of `try_acquire` is discarded; only
the state matters for the conservation invariant). -/
def applyOp (l : Limiter) : LimiterOp → Limiter
  | .acquire a => (tryAcquire l a).1
  | .releaseOp a => release l a

/-- Run a whole trace of limiter calls. -/
def execOps (l : Limiter) (ops : List LimiterOp) : Limiter := ops.foldl applyOp l

/-- A release is guarded when its address does not sit in the map with a
zero counter (acquires are always guarded). -/
def opSafe (l : Limiter) : LimiterOp → Bool
  | .acquire _ => true
  | .releaseOp a =>
    match lookupSession l.sessions a with
    | some 0 => false
    | _ => true

/-- Every operation of the trace is guarded in the state where it runs. -/
def opsSafe : Limiter → List LimiterOp → Bool
  | _, [] => true
  | l, op :: rest => opSafe l op && opsSafe (applyOp l op) rest

/-! ## Connection throttle (`server/connection/throttle.rs`) -/

/-- `ThrottlePolicy` from `server/settings.rs`; all durations in milliseconds. -/
structure ThrottlePolicy where
  maxAttempts : Nat
  intervalWindow : Nat
  fastAttemptThreshold : Nat
  blockDuration : Nat
  penaltyBackoff : Nat
deriving DecidableEq

/-- The per-address `State` of throttle.rs; `Instant`s are `Nat` timestamps. -/
structure ThrottleState where
  attempts : List Nat
  blockedUntil : Option Nat
  penaltyCount : Nat
  lastSeen : Nat
deriving DecidableEq

/-- `State::new`. -/
def throttleStateNew (now : Nat) : ThrottleState :=
  { attempts := [], blockedUntil := none, penaltyCount := 0, lastSeen := now }

/-- The outcome of `Throttle::attempt_connection` for one address (the
`LockFailed` variant concerns mutex poisoning only and cannot arise in the
single-call semantics modelled here). -/
inductive AttemptOutcome where
  | allowed
  | tooFast
  | blocked (endTime : Nat)
deriving DecidableEq

/-- The `while` loop of throttle.rs lines 130-136: pop attempts from the front
of the queue while they are older than the interval window
(`Instant::duration_since` saturates at zero, as does `Nat` subtraction). -/
def dropOldAttempts (now window : Nat) : List Nat → List Nat
  | [] => []
  | front :: rest =>
    if now - front > window then dropOldAttempts now window rest else front :: rest

/-- Throttle.rs lines 129-177: the part of `attempt_connection` that runs once
the address is not (or no longer) blocked — evict old attempts, detect a fast
attempt, record `now`, and either block the address with exponential backoff
or return `tooFast`/`allowed`. -/
def attemptBody (pol : ThrottlePolicy) (st : ThrottleState) (now : Nat) :
    ThrottleState × AttemptOutcome :=
  let attempts1 := dropOldAttempts now pol.intervalWindow st.attempts
  let isFast : Bool :=
    match attempts1.getLast? with
    | some lastAttempt => decide (now - lastAttempt ≤ pol.fastAttemptThreshold)
    | none => false
  let attempts2 := attempts1 ++ [now]
  if attempts2.length > pol.maxAttempts then
    let blockUntil := now + pol.blockDuration * 2 ^ st.penaltyCount
    ({ st with attempts := [], blockedUntil := some blockUntil,
               penaltyCount := st.penaltyCount + 1 }, .blocked blockUntil)
  else if isFast then ({ st with attempts := attempts2 }, .tooFast)
  else ({ st with attempts := attempts2 }, .allowed)

/-- `Throttle::attempt_connection` (throttle.rs lines 92-178) for a single
address state, with the call time `now` passed explicitly.  `2u32.pow` and the
`Duration` arithmetic are exact (`Nat`) here, and `penalty_count`'s
`saturating_add(1)` is `+ 1` (saturation at `u32::MAX` is out of the modelled
range).  While `blocked_until` lies in the future the block is extended by
`penalty_backoff * 2^penalty_count` without touching `penalty_count`. -/
def attemptConnection (pol : ThrottlePolicy) (st : ThrottleState) (now : Nat) :
    ThrottleState × AttemptOutcome :=
  let st1 := { st with lastSeen := now }
  match st1.blockedUntil with
  | some blockEnd =>
    if now < blockEnd then
      let backoffMultiplier := 2 ^ st1.penaltyCount
      let backoffDuration := pol.penaltyBackoff * backoffMultiplier
      let extendedUntil := blockEnd + backoffDuration
      ({ st1 with blockedUntil := some extendedUntil }, .blocked extendedUntil)
    else attemptBody pol { st1 with blockedUntil := none } now
  | none => attemptBody pol st1 now

/-! ## Arithmetic helper lemmas -/

theorem add32_lt (a b : Nat) : add32 a b < M32 :=
  Nat.mod_lt _ (by decide)

theorem sub32_lt (a b : Nat) : sub32 a b < M32 :=
  Nat.mod_lt _ (by decide)

/-- Wrapping subtraction undoes wrapping addition of the same operand. -/
theorem sub32_add32 (a b : Nat) (h : a < M32) : sub32 (add32 a b) b = a := by
  unfold sub32 add32 M32 at *
  omega

/-- The three state components produced by one encryption round are reduced. -/
theorem encRound_lt (k : XTEAKey) (st : Nat × Nat × Nat) :
    (encRound k st).1 < M32 ∧ (encRound k st).2.1 < M32 ∧ (encRound k st).2.2 < M32 := by
  obtain ⟨v0, v1, sum⟩ := st
  exact ⟨add32_lt _ _, add32_lt _ _, add32_lt _ _⟩

/-- One decryption round undoes one encryption round on reduced states. -/
theorem decRound_encRound (k : XTEAKey) (v0 v1 sum : Nat)
    (h0 : v0 < M32) (h1 : v1 < M32) (hs : sum < M32) :
    decRound k (encRound k (v0, v1, sum)) = (v0, v1, sum) := by
  simp only [encRound, decRound]
  rw [sub32_add32 v1 _ h1, sub32_add32 sum _ hs, sub32_add32 v0 _ h0]

/-- Iterated encryption keeps the state reduced. -/
theorem encRounds_lt (k : XTEAKey) (n : Nat) (st : Nat × Nat × Nat)
    (h0 : st.1 < M32) (h1 : st.2.1 < M32) (hs : st.2.2 < M32) :
    (encRounds k n st).1 < M32 ∧ (encRounds k n st).2.1 < M32 ∧
      (encRounds k n st).2.2 < M32 := by
  induction n with
  | zero => exact ⟨h0, h1, hs⟩
  | succ n _ => exact encRound_lt k (encRounds k n st)

/-- `n` decryption rounds undo `n` encryption rounds on reduced states. -/
theorem decRounds_encRounds (k : XTEAKey) (n : Nat) (st : Nat × Nat × Nat)
    (h0 : st.1 < M32) (h1 : st.2.1 < M32) (hs : st.2.2 < M32) :
    decRounds k n (encRounds k n st) = st := by
  induction n with
  | zero => rfl
  | succ n ih =>
    have hlt := encRounds_lt k n st h0 h1 hs
    show decRounds k n (decRound k (encRound k (encRounds k n st))) = st
    rcases hE : encRounds k n st with ⟨v0, v1, sum⟩
    rw [hE] at hlt ih
    rw [decRound_encRound k v0 v1 sum hlt.1 hlt.2.1 hlt.2.2]
    exact ih

/-- The sum component of one encryption round. -/
theorem encRound_sum (k : XTEAKey) (st : Nat × Nat × Nat) :
    (encRound k st).2.2 = add32 st.2.2 XTEA_DELTA := by
  obtain ⟨v0, v1, sum⟩ := st
  rfl

/-- After `n` encryption rounds the running sum is `(s + n * delta) mod 2^32`. -/
theorem encRounds_sum (k : XTEAKey) (n : Nat) (st : Nat × Nat × Nat) (hs : st.2.2 < M32) :
    (encRounds k n st).2.2 = (st.2.2 + n * XTEA_DELTA) % M32 := by
  induction n with
  | zero =>
    simpa using (Nat.mod_eq_of_lt hs).symm
  | succ n ih =>
    show (encRound k (encRounds k n st)).2.2 = _
    rw [encRound_sum, ih]
    unfold add32
    rw [Nat.mod_add_mod]
    ring_nf

/-! ## Little-endian packing lemmas -/

theorem leU32_lt (b0 b1 b2 b3 : Nat)
    (h0 : b0 < 256) (h1 : b1 < 256) (h2 : b2 < 256) (h3 : b3 < 256) :
    leU32 b0 b1 b2 b3 < M32 := by
  unfold leU32 M32
  omega

theorem leBytes32_leU32 (b0 b1 b2 b3 : Nat)
    (h0 : b0 < 256) (h1 : b1 < 256) (h2 : b2 < 256) (h3 : b3 < 256) :
    leBytes32 (leU32 b0 b1 b2 b3) = [b0, b1, b2, b3] := by
  unfold leBytes32 leU32
  simp only [List.cons.injEq, and_true]
  omega

theorem leU32_leBytes32 (v : Nat) (h : v < M32) :
    leU32 (v % 256) (v / 256 % 256) (v / 65536 % 256) (v / 16777216 % 256) = v := by
  unfold leU32 M32 at *
  omega

theorem leBytes32_bytes_lt (v : Nat) : ∀ b ∈ leBytes32 v, b < 256 := by
  intro b hb
  simp only [leBytes32, List.mem_cons, List.not_mem_nil, or_false] at hb
  rcases hb with rfl | rfl | rfl | rfl <;> omega

/-- Unfolding one 8-byte chunk of block-wise decryption when the chunk arrives
as the little-endian bytes of two reduced words. -/
theorem decryptBlocksE_cons_block (k : XTEAKey) (a b : Nat) (t : List Nat)
    (ha : a < M32) (hb : b < M32) :
    decryptBlocksE k (leBytes32 a ++ leBytes32 b ++ t) =
      match decryptBlocksE k t with
      | .ok tail =>
        .ok (leBytes32 (decRounds k XTEA_NUM_ROUNDS
              (a, b, XTEA_DELTA * XTEA_NUM_ROUNDS % M32)).1 ++
          leBytes32 (decRounds k XTEA_NUM_ROUNDS
              (a, b, XTEA_DELTA * XTEA_NUM_ROUNDS % M32)).2.1 ++ tail)
      | .error e => .error e := by
  simp only [leBytes32, List.cons_append, List.nil_append, decryptBlocksE,
    leU32_leBytes32 a ha, leU32_leBytes32 b hb, List.append_eq]

/-! ## Block-level inversion -/

/-- Block-wise decryption undoes block-wise encryption on any byte list whose
length is a multiple of the block size. -/
theorem decryptBlocksE_encryptBlocks (k : XTEAKey) :
    ∀ l : List Nat, (∀ b ∈ l, b < 256) → l.length % 8 = 0 →
      decryptBlocksE k (encryptBlocks k l) = .ok l
  | [], _, _ => rfl
  | [_], _, hlen => by simp at hlen
  | [_, _], _, hlen => by simp at hlen
  | [_, _, _], _, hlen => by simp at hlen
  | [_, _, _, _], _, hlen => by simp at hlen
  | [_, _, _, _, _], _, hlen => by simp at hlen
  | [_, _, _, _, _, _], _, hlen => by simp at hlen
  | [_, _, _, _, _, _, _], _, hlen => by simp at hlen
  | b0 :: b1 :: b2 :: b3 :: b4 :: b5 :: b6 :: b7 :: rest, hb, hlen => by
    have hb' : b0 < 256 ∧ b1 < 256 ∧ b2 < 256 ∧ b3 < 256 ∧
        b4 < 256 ∧ b5 < 256 ∧ b6 < 256 ∧ b7 < 256 := by
      refine ⟨?_, ?_, ?_, ?_, ?_, ?_, ?_, ?_⟩ <;> apply hb <;> simp
    have hbrest : ∀ b ∈ rest, b < 256 := fun b h => hb b (by simp [h])
    have hlenrest : rest.length % 8 = 0 := by
      simp only [List.length_cons] at hlen
      omega
    have ih := decryptBlocksE_encryptBlocks k rest hbrest hlenrest
    have h0 : leU32 b0 b1 b2 b3 < M32 :=
      leU32_lt _ _ _ _ hb'.1 hb'.2.1 hb'.2.2.1 hb'.2.2.2.1
    have h1 : leU32 b4 b5 b6 b7 < M32 :=
      leU32_lt _ _ _ _ hb'.2.2.2.2.1 hb'.2.2.2.2.2.1 hb'.2.2.2.2.2.2.1 hb'.2.2.2.2.2.2.2
    have hz : (leU32 b0 b1 b2 b3, leU32 b4 b5 b6 b7, (0 : Nat)).2.2 < M32 := by
      simp [M32]
    rcases hE : encRounds k XTEA_NUM_ROUNDS (leU32 b0 b1 b2 b3, leU32 b4 b5 b6 b7, 0)
      with ⟨w0, w1, ws⟩
    have hw : w0 < M32 ∧ w1 < M32 ∧ ws < M32 := by
      have h := encRounds_lt k XTEA_NUM_ROUNDS (leU32 b0 b1 b2 b3, leU32 b4 b5 b6 b7, 0)
        h0 h1 hz
      rwa [hE] at h
    have hsum : XTEA_DELTA * XTEA_NUM_ROUNDS % M32 = ws := by
      have h := encRounds_sum k XTEA_NUM_ROUNDS (leU32 b0 b1 b2 b3, leU32 b4 b5 b6 b7, 0) hz
      rw [hE] at h
      simpa [Nat.mul_comm] using h.symm
    have henc : encryptBlocks k (b0 :: b1 :: b2 :: b3 :: b4 :: b5 :: b6 :: b7 :: rest) =
        leBytes32 w0 ++ leBytes32 w1 ++ encryptBlocks k rest := by
      simp [encryptBlocks, hE]
    rw [henc, decryptBlocksE_cons_block k w0 w1 (encryptBlocks k rest) hw.1 hw.2.1, ih,
      hsum, ← hE, decRounds_encRounds k XTEA_NUM_ROUNDS _ h0 h1 hz]
    simp only [leBytes32_leU32 b0 b1 b2 b3 hb'.1 hb'.2.1 hb'.2.2.1 hb'.2.2.2.1,
      leBytes32_leU32 b4 b5 b6 b7 hb'.2.2.2.2.1 hb'.2.2.2.2.2.1 hb'.2.2.2.2.2.2.1
        hb'.2.2.2.2.2.2.2]
    simp

/-- Block-wise encryption preserves the length of block-aligned inputs. -/
theorem encryptBlocks_length (k : XTEAKey) :
    ∀ l : List Nat, l.length % 8 = 0 → (encryptBlocks k l).length = l.length
  | [], _ => rfl
  | [_], hlen => by simp at hlen
  | [_, _], hlen => by simp at hlen
  | [_, _, _], hlen => by simp at hlen
  | [_, _, _, _], hlen => by simp at hlen
  | [_, _, _, _, _], hlen => by simp at hlen
  | [_, _, _, _, _, _], hlen => by simp at hlen
  | [_, _, _, _, _, _, _], hlen => by simp at hlen
  | b0 :: b1 :: b2 :: b3 :: b4 :: b5 :: b6 :: b7 :: rest, hlen => by
    have hlenrest : rest.length % 8 = 0 := by
      simp only [List.length_cons] at hlen
      omega
    have ih := encryptBlocks_length k rest hlenrest
    simp only [encryptBlocks, leBytes32, List.length_append, List.length_cons,
      List.length_nil, ih]
    omega

/-! ## Padding lemmas -/

theorem padZeros_length_mod (m : List Nat) : (padZeros m).length % 8 = 0 := by
  simp only [padZeros, XTEA_BLOCK_SIZE, List.length_append, List.length_replicate]
  omega

theorem padZeros_bytes_lt (m : List Nat) (hb : ∀ b ∈ m, b < 256) :
    ∀ b ∈ padZeros m, b < 256 := by
  intro b hbm
  rcases List.mem_append.mp hbm with h | h
  · exact hb b h
  · have := List.eq_of_mem_replicate h
    omega

theorem padZeros_take (m : List Nat) : (padZeros m).take m.length = m := by
  unfold padZeros
  exact List.take_left m _

theorem padZeros_length_ge (m : List Nat) : m.length ≤ (padZeros m).length := by
  simp [padZeros]

/-- `readInnerLength` succeeds on any list with at least two elements and
returns the little-endian value of the first two. -/
theorem readInnerLength_of_two_le (l : List Nat) (h : 2 ≤ l.length) :
    readInnerLength l = .ok (leU16 (l.getD 0 0) (l.getD 1 0)) := by
  match l with
  | [] => simp at h
  | [_] => simp at h
  | a :: b :: t => rfl

/-! ## XTEA round-trip -/

/-- `decrypt` undoes `encrypt` for any key and any byte string that starts
with the little-endian encoding of its own length minus the 2-byte header:
the zero padding added by `encrypt` is removed by the inner-length
truncation of `decrypt`. -/
theorem decrypt_encrypt (m : List Nat) (k : XTEAKey)
    (h2 : 2 ≤ m.length) (hb : ∀ b ∈ m, b < 256)
    (hhdr : leU16 (m.getD 0 0) (m.getD 1 0) = m.length - 2) :
    decrypt (encrypt m k) k = .ok m := by
  have hpb : ∀ b ∈ padZeros m, b < 256 := padZeros_bytes_lt m hb
  have hpl : (padZeros m).length % 8 = 0 := padZeros_length_mod m
  have hinv := decryptBlocksE_encryptBlocks k (padZeros m) hpb hpl
  have hple : m.length ≤ (padZeros m).length := padZeros_length_ge m
  have hc : ¬((encrypt m k).length % XTEA_BLOCK_SIZE ≠ 0) := by
    unfold encrypt
    rw [encryptBlocks_length k _ hpl]
    simp only [XTEA_BLOCK_SIZE]
    omega
  unfold decrypt
  rw [if_neg hc]
  unfold encrypt
  rw [hinv]
  dsimp only
  rw [if_neg (by omega)]
  rw [readInnerLength_of_two_le _ (by omega)]
  have hg0 : (padZeros m).getD 0 0 = m.getD 0 0 := by
    unfold padZeros
    exact List.getD_append _ _ _ _ (by omega)
  have hg1 : (padZeros m).getD 1 0 = m.getD 1 0 := by
    unfold padZeros
    exact List.getD_append _ _ _ _ (by omega)
  rw [hg0, hg1, hhdr]
  dsimp only
  rw [if_neg (by omega)]
  rw [show m.length - 2 + 2 = m.length by omega, padZeros_take]

/-- Block-wise decryption succeeds on any block-aligned input and preserves
its length. -/
theorem decryptBlocksE_ok_of_aligned (k : XTEAKey) :
    ∀ l : List Nat, l.length % 8 = 0 →
      ∃ d, decryptBlocksE k l = .ok d ∧ d.length = l.length
  | [], _ => ⟨[], rfl, rfl⟩
  | [_], hlen => by simp at hlen
  | [_, _], hlen => by simp at hlen
  | [_, _, _], hlen => by simp at hlen
  | [_, _, _, _], hlen => by simp at hlen
  | [_, _, _, _, _], hlen => by simp at hlen
  | [_, _, _, _, _, _], hlen => by simp at hlen
  | [_, _, _, _, _, _, _], hlen => by simp at hlen
  | b0 :: b1 :: b2 :: b3 :: b4 :: b5 :: b6 :: b7 :: rest, hlen => by
    have hlenrest : rest.length % 8 = 0 := by
      simp only [List.length_cons] at hlen
      omega
    obtain ⟨d, hd, hdl⟩ := decryptBlocksE_ok_of_aligned k rest hlenrest
    refine ⟨leBytes32 (decRounds k XTEA_NUM_ROUNDS
        (leU32 b0 b1 b2 b3, leU32 b4 b5 b6 b7, XTEA_DELTA * XTEA_NUM_ROUNDS % M32)).1 ++
      leBytes32 (decRounds k XTEA_NUM_ROUNDS
        (leU32 b0 b1 b2 b3, leU32 b4 b5 b6 b7, XTEA_DELTA * XTEA_NUM_ROUNDS % M32)).2.1 ++ d,
      ?_, ?_⟩
    · rw [decryptBlocksE, hd]
    · simp only [leBytes32, List.length_append, List.length_cons, List.length_nil, hdl]
      omega

/-! ## Adler-32 agrees with its specification recurrence -/

theorem adlerLoop_eq_foldl : ∀ (l : List Nat) (a b : Nat),
    adlerLoop a b l = l.foldl adlerSpecStep (a, b)
  | [], _, _ => rfl
  | x :: t, a, b => by
    show adlerLoop ((a + x) % MOD_ADLER) ((b + (a + x) % MOD_ADLER) % MOD_ADLER) t = _
    rw [adlerLoop_eq_foldl t]
    rfl

/-! ## Claim theorems -/

/-- C2.  For every 128-bit XTEA key `k` and every byte string `m` whose length
is at least 2 and at most 65537 and whose first two bytes are the little-endian
encoding of `len(m) - 2`, `decrypt (encrypt m k) k = Ok m`: the zero padding
added by `encrypt` is removed by `decrypt`'s inner-length truncation. -/
theorem xtea_encrypt_decrypt_roundtrip (m : List Nat) (k : XTEAKey)
    (h2 : 2 ≤ m.length) (hmax : m.length ≤ 65537) (hb : ∀ b ∈ m, b < 256)
    (hhdr : leU16 (m.getD 0 0) (m.getD 1 0) = m.length - 2) :
    decrypt (encrypt m k) k = .ok m :=
  decrypt_encrypt m k h2 hb hhdr

/-- Witness for C2 at the concrete message `[1, 0, 42]` and the sample key. -/
theorem xtea_encrypt_decrypt_roundtrip_witness :
    decrypt (encrypt [1, 0, 42] ⟨0xA56BABCD, 0, 0xFFFFFFFF, 0x12345678⟩)
      ⟨0xA56BABCD, 0, 0xFFFFFFFF, 0x12345678⟩ = .ok [1, 0, 42] :=
  xtea_encrypt_decrypt_roundtrip [1, 0, 42] ⟨0xA56BABCD, 0, 0xFFFFFFFF, 0x12345678⟩
    (by decide) (by decide) (by decide) (by decide)

/-- C10.  For every ciphertext and key, `decrypt` never returns the
`InvalidBytes` error: once the multiple-of-8 length check passes, every 8-byte
chunk conversion and the 2-byte inner-length read succeed, so the result is
`InvalidBlockSize`, `InnerLengthTooLarge`, or success. -/
theorem decrypt_never_invalid_bytes (c : List Nat) (k : XTEAKey) :
    decrypt c k = .error .InvalidBlockSize ∨
    (∃ i b, decrypt c k = .error (.InnerLengthTooLarge i b)) ∨
    (∃ d, decrypt c k = .ok d) := by
  by_cases h8 : c.length % XTEA_BLOCK_SIZE = 0
  · obtain ⟨d, hd, hdl⟩ := decryptBlocksE_ok_of_aligned k c (by
      simpa [XTEA_BLOCK_SIZE] using h8)
    unfold decrypt
    rw [if_neg (by omega), hd]
    dsimp only
    by_cases hlt : d.length < 2
    · rw [if_pos hlt]
      exact Or.inr (Or.inl ⟨0, c.length, rfl⟩)
    · rw [if_neg hlt, readInnerLength_of_two_le d (by omega)]
      dsimp only
      by_cases hbig : leU16 (d.getD 0 0) (d.getD 1 0) + 2 > d.length
      · rw [if_pos hbig]
        exact Or.inr (Or.inl ⟨_, c.length, rfl⟩)
      · rw [if_neg hbig]
        exact Or.inr (Or.inr ⟨_, rfl⟩)
  · unfold decrypt
    rw [if_pos h8]
    exact Or.inl rfl

/-- C9.  `Adler32Checksum::calculate` computes exactly the documented
recurrence (`A = 1, B = 0`; per byte `A = (A + x) mod 65521`,
`B = (B + A) mod 65521`; final value `(B << 16) | A`), yields `1` on the empty
input, and yields `0x062C0215` on `"hello"`. -/
theorem adler32_matches_spec_and_vectors :
    (∀ data : List Nat, adlerCalculate data = adlerSpec data) ∧
    adlerCalculate [] = 1 ∧
    adlerCalculate [104, 101, 108, 108, 111] = 0x062C0215 := by
  refine ⟨fun data => ?_, by decide, by decide⟩
  unfold adlerCalculate adlerSpec
  rw [adlerLoop_eq_foldl]

/-- C1 (scenario S6).  With key `[0xA56BABCD, 0, 0xFFFFFFFF, 0x12345678]` and
plaintext `[u16_le 9, 0x1E, 0x00 * 8]` encrypted (padded to 16 bytes) and
prefixed with its Adler-32 and length header, the subsequent parser does NOT
emit a KeepAlive packet: `decrypt` keeps the 2-byte inner-length header, so the
parser reads the header's low byte `0x09` as the kind byte and fails with
`UnknownId 9`. -/
theorem subsequent_s6_frame_unknown_id :
    subsequentTakePacket ⟨0xA56BABCD, 0, 0xFFFFFFFF, 0x12345678⟩ 65535
      (leBytes16 (PACKET_CHECKSUM_SIZE +
          (encrypt [9, 0, 30, 0, 0, 0, 0, 0, 0, 0, 0]
            ⟨0xA56BABCD, 0, 0xFFFFFFFF, 0x12345678⟩).length) ++
        leBytes32 (adlerCalculate (encrypt [9, 0, 30, 0, 0, 0, 0, 0, 0, 0, 0]
          ⟨0xA56BABCD, 0, 0xFFFFFFFF, 0x12345678⟩)) ++
        encrypt [9, 0, 30, 0, 0, 0, 0, 0, 0, 0, 0]
          ⟨0xA56BABCD, 0, 0xFFFFFFFF, 0x12345678⟩) =
      .error (.UnknownId 9) := by
  decide

/-- C3.  Case analysis of the login-stage `take_packet` exactly as coded:
`IncompletePrefix` (rendered `IncompleteHeader`) below 2 buffered bytes,
`EmptyLength` on a zero declared length, `LengthOutOfBounds` when
`2 + body_len` exceeds `login_max_length`, `IncompletePacket` when the buffer
holds fewer than `2 + body_len` bytes, `TooShort` when `body_len < 5`,
`ChecksumMismatch` when the stored checksum is nonzero and differs from the
Adler-32 of `body[5..]` (skipped when zero); on success with kind byte 10
(`Login`) it emits `{kind = Login, checksum = none, payload = body[5..]}`, and
any other kind byte is rejected with `UnknownId`. -/
theorem login_take_packet_cases (inner : List Nat) (maxLength bodyLen : Nat)
    (body payload : List Nat) (expected : Nat)
    (hbl : bodyLen = leU16 (inner.getD 0 0) (inner.getD 1 0))
    (hbody : body = (inner.take (PACKET_HEADER_SIZE + bodyLen)).drop PACKET_HEADER_SIZE)
    (hexp : expected = leU32 (body.getD 0 0) (body.getD 1 0) (body.getD 2 0) (body.getD 3 0))
    (hpay : payload = body.drop (PACKET_CHECKSUM_SIZE + PACKET_KIND_SIZE)) :
    (inner.length < PACKET_HEADER_SIZE →
      loginTakePacket inner maxLength =
        .error (.IncompleteHeader inner.length PACKET_HEADER_SIZE)) ∧
    (PACKET_HEADER_SIZE ≤ inner.length → bodyLen = 0 →
      loginTakePacket inner maxLength = .error .EmptyLength) ∧
    (PACKET_HEADER_SIZE ≤ inner.length → bodyLen ≠ 0 →
      maxLength < PACKET_HEADER_SIZE + bodyLen →
      loginTakePacket inner maxLength =
        .error (.LengthOutOfBounds (PACKET_HEADER_SIZE + bodyLen) maxLength)) ∧
    (PACKET_HEADER_SIZE ≤ inner.length → bodyLen ≠ 0 →
      PACKET_HEADER_SIZE + bodyLen ≤ maxLength →
      inner.length < PACKET_HEADER_SIZE + bodyLen →
      loginTakePacket inner maxLength =
        .error (.IncompletePacket inner.length (PACKET_HEADER_SIZE + bodyLen))) ∧
    (PACKET_HEADER_SIZE ≤ inner.length → bodyLen ≠ 0 →
      PACKET_HEADER_SIZE + bodyLen ≤ maxLength →
      PACKET_HEADER_SIZE + bodyLen ≤ inner.length →
      bodyLen < PACKET_CHECKSUM_SIZE + PACKET_KIND_SIZE →
      loginTakePacket inner maxLength =
        .error (.TooShort bodyLen (PACKET_CHECKSUM_SIZE + PACKET_KIND_SIZE))) ∧
    (PACKET_HEADER_SIZE ≤ inner.length → bodyLen ≠ 0 →
      PACKET_HEADER_SIZE + bodyLen ≤ maxLength →
      PACKET_HEADER_SIZE + bodyLen ≤ inner.length →
      PACKET_CHECKSUM_SIZE + PACKET_KIND_SIZE ≤ bodyLen →
      expected ≠ 0 → expected ≠ adlerCalculate payload →
      loginTakePacket inner maxLength =
        .error (.ChecksumMismatch expected (adlerCalculate payload))) ∧
    (PACKET_HEADER_SIZE ≤ inner.length → bodyLen ≠ 0 →
      PACKET_HEADER_SIZE + bodyLen ≤ maxLength →
      PACKET_HEADER_SIZE + bodyLen ≤ inner.length →
      PACKET_CHECKSUM_SIZE + PACKET_KIND_SIZE ≤ bodyLen →
      (expected = 0 ∨ expected = adlerCalculate payload) →
      body.getD PACKET_CHECKSUM_SIZE 0 = 10 →
      loginTakePacket inner maxLength = .ok ⟨none, .Login, payload⟩) ∧
    (PACKET_HEADER_SIZE ≤ inner.length → bodyLen ≠ 0 →
      PACKET_HEADER_SIZE + bodyLen ≤ maxLength →
      PACKET_HEADER_SIZE + bodyLen ≤ inner.length →
      PACKET_CHECKSUM_SIZE + PACKET_KIND_SIZE ≤ bodyLen →
      (expected = 0 ∨ expected = adlerCalculate payload) →
      body.getD PACKET_CHECKSUM_SIZE 0 ≠ 10 →
      loginTakePacket inner maxLength =
        .error (.UnknownId (body.getD PACKET_CHECKSUM_SIZE 0))) := by
  subst hpay
  subst hexp
  subst hbody
  subst hbl
  refine ⟨?_, ?_, ?_, ?_, ?_, ?_, ?_, ?_⟩
  · intro h1
    simp only [loginTakePacket]
    split_ifs <;> first | rfl | omega
  · intro h1 h2
    simp only [loginTakePacket]
    split_ifs <;> first | rfl | omega
  · intro h1 h2 h3
    simp only [loginTakePacket]
    split_ifs <;> first | rfl | omega
  · intro h1 h2 h3 h4
    simp only [loginTakePacket]
    split_ifs <;> first | rfl | omega
  · intro h1 h2 h3 h4 h5
    have hlb2 : ((inner.take (PACKET_HEADER_SIZE +
        leU16 (inner.getD 0 0) (inner.getD 1 0))).drop PACKET_HEADER_SIZE).length =
        leU16 (inner.getD 0 0) (inner.getD 1 0) := by
      simp only [List.length_drop, List.length_take]
      omega
    simp only [loginTakePacket]
    split_ifs <;> first | rfl | omega | rw [hlb2]
  · intro h1 h2 h3 h4 h5 h6 h7
    have hlb2 : ((inner.take (PACKET_HEADER_SIZE +
        leU16 (inner.getD 0 0) (inner.getD 1 0))).drop PACKET_HEADER_SIZE).length =
        leU16 (inner.getD 0 0) (inner.getD 1 0) := by
      simp only [List.length_drop, List.length_take]
      omega
    simp only [loginTakePacket]
    split_ifs <;> first | rfl | omega | exact absurd (by omega) h6 |
      exact absurd rfl h7
  · intro h1 h2 h3 h4 h5 h6 h7
    have hlb2 : ((inner.take (PACKET_HEADER_SIZE +
        leU16 (inner.getD 0 0) (inner.getD 1 0))).drop PACKET_HEADER_SIZE).length =
        leU16 (inner.getD 0 0) (inner.getD 1 0) := by
      simp only [List.length_drop, List.length_take]
      omega
    simp only [loginTakePacket]
    split_ifs <;>
      first
      | rfl
      | omega
      | (rcases h6 with h6 | h6 <;> omega)
      | (rw [h7]; simp [PacketKind.tryFromByte])
  · intro h1 h2 h3 h4 h5 h6 h7
    have hlb2 : ((inner.take (PACKET_HEADER_SIZE +
        leU16 (inner.getD 0 0) (inner.getD 1 0))).drop PACKET_HEADER_SIZE).length =
        leU16 (inner.getD 0 0) (inner.getD 1 0) := by
      simp only [List.length_drop, List.length_take]
      omega
    simp only [loginTakePacket]
    split_ifs <;>
      first
      | rfl
      | omega
      | (rcases h6 with h6 | h6 <;> omega)
      | (simp only [PacketKind.tryFromByte]; split_ifs <;> first | simp | omega)


/-- C8 counterexample at `body_len = 4`: the frame `[4, 0, 0, 0, 0, 0]`
(declared body length 4, zero checksum, no ciphertext) passes the subsequent
parser's short-body check and fails only inside XTEA decryption — it is not
rejected with `TooShort`. -/
theorem subsequent_bodyLen4_not_tooShort :
    subsequentTakePacket ⟨1, 2, 3, 4⟩ 100 [4, 0, 0, 0, 0, 0] =
      .error (.XteaDecryption (.InnerLengthTooLarge 0 0)) := by
  decide

/-- C8 amended: in the subsequent parser the short-body floor is
`PACKET_CHECKSUM_SIZE = 4` alone (not `CHECKSUM + KIND = 5` as in the login
parser): a complete frame whose declared body length is below 4 is rejected
with `TooShort`. -/
theorem subsequent_tooShort_floor (key : XTEAKey) (inner : List Nat)
    (maxLength bodyLen : Nat)
    (hbl : bodyLen = leU16 (inner.getD 0 0) (inner.getD 1 0))
    (h1 : PACKET_HEADER_SIZE ≤ inner.length) (h2 : bodyLen ≠ 0)
    (h3 : PACKET_HEADER_SIZE + bodyLen ≤ maxLength)
    (h4 : PACKET_HEADER_SIZE + bodyLen ≤ inner.length)
    (h5 : bodyLen < PACKET_CHECKSUM_SIZE) :
    subsequentTakePacket key maxLength inner =
      .error (.TooShort bodyLen PACKET_CHECKSUM_SIZE) := by
  subst hbl
  have hlb2 : ((inner.take (PACKET_HEADER_SIZE +
      leU16 (inner.getD 0 0) (inner.getD 1 0))).drop PACKET_HEADER_SIZE).length =
      leU16 (inner.getD 0 0) (inner.getD 1 0) := by
    simp only [List.length_drop, List.length_take]
    omega
  simp only [subsequentTakePacket]
  split_ifs <;> first | rfl | omega | rw [hlb2]

/-- Witness for the amended C8 statement at a concrete three-byte body. -/
theorem subsequent_tooShort_floor_witness :
    subsequentTakePacket ⟨0, 0, 0, 0⟩ 100 [3, 0, 9, 9, 9] =
      .error (.TooShort 3 PACKET_CHECKSUM_SIZE) :=
  subsequent_tooShort_floor ⟨0, 0, 0, 0⟩ [3, 0, 9, 9, 9] 100 3 (by decide) (by decide)
    (by decide) (by decide) (by decide) (by decide)

/-- C4.  On the first server-name read, the special empty packet is triggered
by a zero in the **first** byte of the payload region (`inner[HEADER_SIZE]`),
not the second as documented: with buffered payload `[0x41, 0x00]` (second
byte zero) nothing is finalized, while payload `[0x00, 0x41]` (first byte
zero) is finalized immediately. -/
theorem serverName_empty_packet_uses_first_byte :
    serverNameTakePacket ⟨[0, 0, 0x41, 0x00], false⟩ = none ∧
    serverNameTakePacket ⟨[0, 0, 0x00, 0x41], false⟩ =
      some ⟨none, .ServerName, [2, 0, 0x00, 0x41]⟩ := by
  decide

/-- If `attempt_connection` falls through to its unblocked body and returns
`blocked e`, then `e = now + block_duration * 2^penalty_count` lies at or
after `now` and is stored back into `blocked_until`. -/
theorem attemptBody_blocked (pol : ThrottlePolicy) (s : ThrottleState) (now : Nat)
    (st2 : ThrottleState) (e : Nat) (h : attemptBody pol s now = (st2, .blocked e)) :
    now ≤ e ∧ st2.blockedUntil = some e := by
  simp only [attemptBody] at h
  split_ifs at h with h1 h2
  · rw [Prod.mk.injEq] at h
    obtain ⟨hst, hout⟩ := h
    cases hout
    exact ⟨Nat.le_add_right _ _, by rw [← hst]⟩
  · rw [Prod.mk.injEq] at h
    exact absurd h.2 (by simp)
  · rw [Prod.mk.injEq] at h
    exact absurd h.2 (by simp)

/-- C7.  From a state whose `blocked_until` is `some u`: any attempt that
returns `Blocked e` satisfies `u ≤ e` and stores `e` back into
`blocked_until` (so consecutive blocked attempts return non-decreasing
values); and an attempt made strictly before `u` extends the block by exactly
`penalty_backoff * 2^penalty_count`, changing nothing else — in particular
`penalty_count` is not incremented. -/
theorem throttle_blocked_monotonic (pol : ThrottlePolicy) (st : ThrottleState)
    (now u : Nat) (hb : st.blockedUntil = some u) :
    (∀ st2 e, attemptConnection pol st now = (st2, .blocked e) →
      u ≤ e ∧ st2.blockedUntil = some e) ∧
    (now < u →
      attemptConnection pol st now =
        ({ st with
            lastSeen := now,
            blockedUntil := some (u + pol.penaltyBackoff * 2 ^ st.penaltyCount) },
         .blocked (u + pol.penaltyBackoff * 2 ^ st.penaltyCount))) := by
  constructor
  · intro st2 e heq
    unfold attemptConnection at heq
    rw [show ({ st with lastSeen := now } : ThrottleState).blockedUntil =
      some u from hb] at heq
    dsimp only at heq
    split_ifs at heq with h1
    · rw [Prod.mk.injEq] at heq
      obtain ⟨hst, hout⟩ := heq
      cases hout
      exact ⟨Nat.le_add_right _ _, by rw [← hst]⟩
    · have := attemptBody_blocked pol _ now st2 e heq
      exact ⟨by omega, this.2⟩
  · intro hlt
    unfold attemptConnection
    rw [show ({ st with lastSeen := now } : ThrottleState).blockedUntil =
      some u from hb]
    dsimp only
    rw [if_pos hlt]

/-- Witness for C7 at a concrete blocked state. -/
theorem throttle_blocked_monotonic_witness :
    attemptConnection ⟨5, 5000, 500, 3000, 250⟩ ⟨[], some 100, 1, 0⟩ 50 =
      (⟨[], some 600, 1, 50⟩, .blocked 600) :=
  ((throttle_blocked_monotonic ⟨5, 5000, 500, 3000, 250⟩ ⟨[], some 100, 1, 0⟩ 50 100
    rfl).2 (by decide))


/-! ## Adler-32 bounds and the outgoing encoder layout -/

theorem adlerLoop_bounds : ∀ (l : List Nat) (a b : Nat), a < 65521 → b < 65521 →
    (adlerLoop a b l).1 < 65521 ∧ (adlerLoop a b l).2 < 65521
  | [], _, _, ha, hb => ⟨ha, hb⟩
  | _ :: t, a, b, _, _ =>
    adlerLoop_bounds t _ _ (Nat.mod_lt _ (by decide)) (Nat.mod_lt _ (by decide))

theorem adlerCalculate_lt (data : List Nat) : adlerCalculate data < M32 := by
  obtain ⟨h1, h2⟩ := adlerLoop_bounds data 1 0 (by decide) (by decide)
  unfold adlerCalculate
  dsimp only
  have hs : (adlerLoop 1 0 data).2 <<< 16 < 2 ^ 32 := by
    rw [Nat.shiftLeft_eq]
    have h3 : (2 : Nat) ^ 16 = 65536 := by norm_num
    rw [h3]
    omega
  have hl : (adlerLoop 1 0 data).1 < 2 ^ 32 := by
    have h3 : (2 : Nat) ^ 32 = 4294967296 := by norm_num
    omega
  have hor := Nat.or_lt_two_pow hs hl
  have h3 : (2 : Nat) ^ 32 = 4294967296 := by norm_num
  unfold M32
  omega

/-- The value `OutgoingPacket::encode` produces in `Adler32` mode, written as
the concatenation the sequence of reserved-region writes amounts to. -/
theorem outgoingEncode_adler_eq (payload : List Nat) (xteaKey : Option XTEAKey)
    (body : List Nat)
    (hbody : body = match xteaKey with | some k => encrypt payload k | none => payload) :
    outgoingEncode payload xteaKey .Adler32 =
      some (leBytes16 (PACKET_CHECKSUM_SIZE + PACKET_HEADER_SIZE + body.length) ++
        leBytes32 (adlerCalculate (leBytes16 body.length ++ body)) ++
        (leBytes16 body.length ++ body)) := by
  rcases xteaKey with _ | k
  · dsimp only at hbody
    subst hbody
    rfl
  · dsimp only at hbody
    subst hbody
    rfl

/-- C5.  Encoding an outgoing packet in `Adler32` mode yields the layout
`[u16 total_len][u32 checksum][u16 body_len][body]` where `body` is the raw
payload without a key and the zero-padded XTEA ciphertext with one;
`body_len = len(body)`, `total_len = 4 + 2 + len(body)`, and the checksum is
the Adler-32 of the region from the `body_len` field (inclusive) to the end. -/
theorem outgoing_encode_layout (payload : List Nat) (xteaKey : Option XTEAKey)
    (body : List Nat)
    (hbody : body = match xteaKey with | some k => encrypt payload k | none => payload)
    (hlen : PACKET_CHECKSUM_SIZE + PACKET_HEADER_SIZE + body.length < 65536) :
    ∃ out, outgoingEncode payload xteaKey .Adler32 = some out ∧
      out.length = PACKET_HEADER_SIZE + PACKET_CHECKSUM_SIZE + PACKET_HEADER_SIZE +
        body.length ∧
      leU16 (out.getD 0 0) (out.getD 1 0) =
        PACKET_CHECKSUM_SIZE + PACKET_HEADER_SIZE + body.length ∧
      leU32 (out.getD 2 0) (out.getD 3 0) (out.getD 4 0) (out.getD 5 0) =
        adlerCalculate (out.drop (PACKET_HEADER_SIZE + PACKET_CHECKSUM_SIZE)) ∧
      leU16 (out.getD 6 0) (out.getD 7 0) = body.length ∧
      out.drop (PACKET_HEADER_SIZE + PACKET_CHECKSUM_SIZE + PACKET_HEADER_SIZE) = body := by
  refine ⟨_, outgoingEncode_adler_eq payload xteaKey body hbody, ?_, ?_, ?_, ?_, ?_⟩
  · simp only [leBytes16, leBytes32, List.length_append, List.length_cons, List.length_nil,
      PACKET_HEADER_SIZE, PACKET_CHECKSUM_SIZE]
    omega
  · have e0 : (leBytes16 (PACKET_CHECKSUM_SIZE + PACKET_HEADER_SIZE + body.length) ++
        (leBytes32 (adlerCalculate (leBytes16 body.length ++ body)) ++
        (leBytes16 body.length ++ body))).getD 0 0 =
        (PACKET_CHECKSUM_SIZE + PACKET_HEADER_SIZE + body.length) % 256 := rfl
    have e1 : (leBytes16 (PACKET_CHECKSUM_SIZE + PACKET_HEADER_SIZE + body.length) ++
        (leBytes32 (adlerCalculate (leBytes16 body.length ++ body)) ++
        (leBytes16 body.length ++ body))).getD 1 0 =
        (PACKET_CHECKSUM_SIZE + PACKET_HEADER_SIZE + body.length) / 256 % 256 := rfl
    rw [List.append_assoc, e0, e1]
    unfold leU16
    omega
  · have hdrop : (leBytes16 (PACKET_CHECKSUM_SIZE + PACKET_HEADER_SIZE + body.length) ++
        (leBytes32 (adlerCalculate (leBytes16 body.length ++ body)) ++
        (leBytes16 body.length ++ body))).drop (PACKET_HEADER_SIZE + PACKET_CHECKSUM_SIZE) =
        leBytes16 body.length ++ body := rfl
    rw [List.append_assoc, hdrop]
    exact leU32_leBytes32 _ (adlerCalculate_lt _)
  · have e6 : (leBytes16 (PACKET_CHECKSUM_SIZE + PACKET_HEADER_SIZE + body.length) ++
        (leBytes32 (adlerCalculate (leBytes16 body.length ++ body)) ++
        (leBytes16 body.length ++ body))).getD 6 0 = body.length % 256 := rfl
    have e7 : (leBytes16 (PACKET_CHECKSUM_SIZE + PACKET_HEADER_SIZE + body.length) ++
        (leBytes32 (adlerCalculate (leBytes16 body.length ++ body)) ++
        (leBytes16 body.length ++ body))).getD 7 0 = body.length / 256 % 256 := rfl
    rw [List.append_assoc, e6, e7]
    unfold leU16
    omega
  · rw [List.append_assoc]
    rfl

/-- Witness for C5 at the concrete payload `[30, 1, 2]` with no key. -/
theorem outgoing_encode_layout_witness :
    ∃ out, outgoingEncode [30, 1, 2] none .Adler32 = some out ∧
      out.length = PACKET_HEADER_SIZE + PACKET_CHECKSUM_SIZE + PACKET_HEADER_SIZE + 3 := by
  obtain ⟨out, h1, h2, _⟩ := outgoing_encode_layout [30, 1, 2] none [30, 1, 2] rfl (by decide)
  exact ⟨out, h1, h2⟩


/-! ## Limiter: conservation of the session counters -/

theorem lookupSession_none_not_mem : ∀ (s : List (Nat × Nat)) (addr : Nat),
    lookupSession s addr = none → ∀ p ∈ s, p.1 ≠ addr
  | [], _, _, p, hp => absurd hp (List.not_mem_nil p)
  | (a, v) :: rest, addr, h, p, hp => by
    simp only [lookupSession] at h
    split_ifs at h with ha
    rcases List.mem_cons.mp hp with rfl | hmem
    · exact ha
    · exact lookupSession_none_not_mem rest addr h p hmem

theorem lookupSession_none_of_not_mem : ∀ (s : List (Nat × Nat)) (addr : Nat),
    (∀ p ∈ s, p.1 ≠ addr) → lookupSession s addr = none
  | [], _, _ => rfl
  | (a, v) :: rest, addr, h => by
    simp only [lookupSession]
    rw [if_neg (h (a, v) (List.mem_cons_self _ _))]
    exact lookupSession_none_of_not_mem rest addr
      (fun p hp => h p (List.mem_cons_of_mem _ hp))

theorem setSession_of_not_mem : ∀ (s : List (Nat × Nat)) (addr v : Nat),
    (∀ p ∈ s, p.1 ≠ addr) → setSession s addr v = s
  | [], _, _, _ => rfl
  | (a, c) :: rest, addr, v, h => by
    have hrest := setSession_of_not_mem rest addr v
      (fun p hp => h p (List.mem_cons_of_mem _ hp))
    simp only [setSession] at hrest ⊢
    rw [List.map_cons, if_neg (h (a, c) (List.mem_cons_self _ _)), hrest]

theorem setSession_keys : ∀ (s : List (Nat × Nat)) (addr v : Nat),
    (setSession s addr v).map Prod.fst = s.map Prod.fst
  | [], _, _ => rfl
  | (a, c) :: rest, addr, v => by
    have hrest := setSession_keys rest addr v
    simp only [setSession] at hrest ⊢
    rw [List.map_cons, List.map_cons, List.map_cons, hrest]
    by_cases ha : a = addr
    · rw [if_pos ha]
      simp [ha]
    · rw [if_neg ha]

theorem sum_setSession : ∀ (s : List (Nat × Nat)) (addr c v : Nat),
    (s.map Prod.fst).Nodup → lookupSession s addr = some c →
    ((setSession s addr v).map Prod.snd).sum + c = (s.map Prod.snd).sum + v
  | [], _, _, _, _, hl => Option.noConfusion hl
  | (a, b) :: rest, addr, c, v, hnd, hl => by
    simp only [lookupSession] at hl
    simp only [List.map_cons, List.nodup_cons] at hnd
    by_cases ha : a = addr
    · rw [if_pos ha] at hl
      cases hl
      subst ha
      have hid := setSession_of_not_mem rest a v
        (fun p hp heq => hnd.1 (heq ▸ List.mem_map_of_mem Prod.fst hp))
      simp only [setSession] at hid ⊢
      rw [List.map_cons, if_pos rfl, hid]
      simp only [List.map_cons, List.sum_cons]
      omega
    · rw [if_neg ha] at hl
      have ih := sum_setSession rest addr c v hnd.2 hl
      simp only [setSession] at ih ⊢
      rw [List.map_cons, if_neg ha]
      simp only [List.map_cons, List.sum_cons]
      omega

theorem lookup_le_sum : ∀ (s : List (Nat × Nat)) (addr c : Nat),
    lookupSession s addr = some c → c ≤ (s.map Prod.snd).sum
  | [], _, _, hl => Option.noConfusion hl
  | (a, b) :: rest, addr, c, hl => by
    simp only [lookupSession] at hl
    simp only [List.map_cons, List.sum_cons]
    split_ifs at hl with ha
    · cases hl
      omega
    · have := lookup_le_sum rest addr c hl
      omega

theorem lookup_append_self : ∀ (s : List (Nat × Nat)) (addr : Nat),
    lookupSession s addr = none → lookupSession (s ++ [(addr, 0)]) addr = some 0
  | [], addr, _ => by simp [lookupSession]
  | (a, v) :: rest, addr, h => by
    simp only [lookupSession] at h
    split_ifs at h with ha
    show lookupSession ((a, v) :: (rest ++ [(addr, 0)])) addr = some 0
    simp only [lookupSession]
    rw [if_neg ha]
    exact lookup_append_self rest addr h

theorem nodup_keys_append (s : List (Nat × Nat)) (addr : Nat)
    (h : lookupSession s addr = none) (hnd : (s.map Prod.fst).Nodup) :
    ((s ++ [(addr, 0)]).map Prod.fst).Nodup := by
  rw [List.map_append]
  apply List.Nodup.append hnd (by simp)
  intro x hx hy
  simp only [List.map_cons, List.map_nil, List.mem_singleton] at hy
  subst hy
  obtain ⟨p, hp, hpx⟩ := List.mem_map.mp hx
  exact lookupSession_none_not_mem s x h p hp hpx

theorem tryAcquire_nodup (l : Limiter) (addr : Nat)
    (hnd : (l.sessions.map Prod.fst).Nodup) :
    (((tryAcquire l addr).1).sessions.map Prod.fst).Nodup := by
  rcases hl : lookupSession l.sessions addr with _ | c
  · simp only [tryAcquire, hl]
    split_ifs
    · exact hnd
    · exact nodup_keys_append l.sessions addr hl hnd
    · rw [setSession_keys]
      exact nodup_keys_append l.sessions addr hl hnd
  · simp only [tryAcquire, hl]
    split_ifs
    · exact hnd
    · exact hnd
    · rw [setSession_keys]
      exact hnd

theorem tryAcquire_conservation (l : Limiter) (addr : Nat)
    (hnd : (l.sessions.map Prod.fst).Nodup)
    (hc : l.totalActive = sessionsSum l) :
    ((tryAcquire l addr).1).totalActive = sessionsSum ((tryAcquire l addr).1) := by
  rcases hl : lookupSession l.sessions addr with _ | c
  · simp only [tryAcquire, hl]
    split_ifs with h1 h2
    · exact hc
    · simp only [sessionsSum] at hc ⊢
      simp only [List.map_append, List.sum_append]
      simp [hc]
    · have hl2 := lookup_append_self l.sessions addr hl
      have hnd2 := nodup_keys_append l.sessions addr hl hnd
      have hsum := sum_setSession (l.sessions ++ [(addr, 0)]) addr 0
        (((lookupSession (l.sessions ++ [(addr, 0)]) addr).getD 0) + 1) hnd2 hl2
      simp only [sessionsSum] at hc ⊢
      simp only [hl2, Option.getD_some] at hsum ⊢
      simp only [List.map_append, List.sum_append] at hsum ⊢
      simp only [List.map_cons, List.map_nil, List.sum_cons, List.sum_nil] at hsum
      omega
  · simp only [tryAcquire, hl]
    split_ifs with h1 h2
    · exact hc
    · exact hc
    · have hsum := sum_setSession l.sessions addr c
        (((lookupSession l.sessions addr).getD 0) + 1) hnd hl
      simp only [sessionsSum] at hc ⊢
      simp only [hl, Option.getD_some] at hsum ⊢
      omega

theorem release_nodup (l : Limiter) (addr : Nat)
    (hnd : (l.sessions.map Prod.fst).Nodup) :
    ((release l addr).sessions.map Prod.fst).Nodup := by
  rcases hl : lookupSession l.sessions addr with _ | c <;>
    simp only [release, hl]
  · exact hnd
  · rw [setSession_keys]
    exact hnd

theorem release_conservation (l : Limiter) (addr : Nat)
    (hnd : (l.sessions.map Prod.fst).Nodup)
    (hc : l.totalActive = sessionsSum l)
    (hguard : lookupSession l.sessions addr ≠ some 0) :
    (release l addr).totalActive = sessionsSum (release l addr) := by
  rcases hl : lookupSession l.sessions addr with _ | c
  · simp only [release, hl]
    exact hc
  · have hcpos : 0 < c := by
      rcases Nat.eq_zero_or_pos c with rfl | h
      · exact absurd hl hguard
      · exact h
    have hle := lookup_le_sum l.sessions addr c hl
    have hsum := sum_setSession l.sessions addr c (c - 1) hnd hl
    simp only [release, hl]
    simp only [sessionsSum] at hc ⊢
    rw [if_pos hcpos, if_pos (by omega)]
    omega

theorem applyOp_nodup (l : Limiter) (op : LimiterOp)
    (hnd : (l.sessions.map Prod.fst).Nodup) :
    ((applyOp l op).sessions.map Prod.fst).Nodup := by
  cases op with
  | acquire a => exact tryAcquire_nodup l a hnd
  | releaseOp a => exact release_nodup l a hnd

theorem opSafe_release (l : Limiter) (a : Nat)
    (h : opSafe l (.releaseOp a) = true) :
    lookupSession l.sessions a ≠ some 0 := by
  intro hl
  simp only [opSafe, hl] at h
  exact Bool.noConfusion h

theorem execOps_conservation_aux : ∀ (ops : List LimiterOp) (l : Limiter),
    (l.sessions.map Prod.fst).Nodup → l.totalActive = sessionsSum l →
    opsSafe l ops = true →
    (execOps l ops).totalActive = sessionsSum (execOps l ops)
  | [], _, _, hc, _ => hc
  | op :: rest, l, hnd, hc, hsafe => by
    simp only [opsSafe, Bool.and_eq_true] at hsafe
    have hc2 : (applyOp l op).totalActive = sessionsSum (applyOp l op) := by
      cases op with
      | acquire a => exact tryAcquire_conservation l a hnd hc
      | releaseOp a =>
        exact release_conservation l a hnd hc (opSafe_release l a hsafe.1)
    exact execOps_conservation_aux rest (applyOp l op) (applyOp_nodup l op hnd) hc2 hsafe.2

/-- C6 counterexample.  The trace `acquire 0; release 0; acquire 1; release 0`
leaves `total_active = 0` but per-address counters summing to 1: the second
`release 0` finds the stale zero entry for address 0, skips the per-address
decrement, and still decrements the global counter. -/
theorem limiter_conservation_counterexample :
    (execOps (initLimiter ⟨10, 10⟩)
      [.acquire 0, .releaseOp 0, .acquire 1, .releaseOp 0]).totalActive = 0 ∧
    sessionsSum (execOps (initLimiter ⟨10, 10⟩)
      [.acquire 0, .releaseOp 0, .acquire 1, .releaseOp 0]) = 1 := by
  decide

/-- C6 amended.  After any sequence of `try_acquire`/`release` calls, with
arbitrary addresses and any session quota, in which no `release` targets an
address whose per-address counter currently sits at zero, `total_active`
equals the sum over all addresses of the per-address active counters. -/
theorem limiter_conservation_guarded (q : SessionQuota) (ops : List LimiterOp)
    (hsafe : opsSafe (initLimiter q) ops = true) :
    (execOps (initLimiter q) ops).totalActive =
      sessionsSum (execOps (initLimiter q) ops) :=
  execOps_conservation_aux ops (initLimiter q) (by simp [initLimiter]) rfl hsafe

/-- Witness for the amended C6 statement on a concrete guarded trace. -/
theorem limiter_conservation_guarded_witness :
    (execOps (initLimiter ⟨10, 10⟩)
      [.acquire 0, .acquire 1, .releaseOp 0, .releaseOp 1]).totalActive =
      sessionsSum (execOps (initLimiter ⟨10, 10⟩)
        [.acquire 0, .acquire 1, .releaseOp 0, .releaseOp 1]) :=
  limiter_conservation_guarded ⟨10, 10⟩ [.acquire 0, .acquire 1, .releaseOp 0, .releaseOp 1]
    (by decide)


/-- Witness for C3 at a concrete login frame with suppressed checksum. -/
theorem login_take_packet_cases_witness :
    loginTakePacket [8, 0, 0, 0, 0, 0, 10, 1, 2, 3] 100 =
      .ok ⟨none, .Login, [1, 2, 3]⟩ :=
  (login_take_packet_cases [8, 0, 0, 0, 0, 0, 10, 1, 2, 3] 100 8
      [0, 0, 0, 0, 10, 1, 2, 3] [1, 2, 3] 0
      (by decide) (by decide) (by decide) (by decide)).2.2.2.2.2.2.1
    (by decide) (by decide) (by decide) (by decide) (by decide) (Or.inl rfl) (by decide)

end Suon


